import Mathlib

/-!
Verification of the credential-rotation and account-management logic of
`termi_tool` against its specification.

The embedded code:
* `GeminiAccountManager` (`src/categorie/data_ai/ai_development/gemini_tools/account_manager.py`):
  an insertion-ordered mapping from email to account data plus a current-account
  pointer, with `add_account` / `switch_account` / `delete_account` /
  `get_current_credentials` operations.
* `MultimodalAnnotator._analyze_image`
  (`src/categorie/data_ai/vision_tool/multimodal_tool/image_annotator.py`, lines 110-230):
  the rotation loop that tries the work (one Gemini vision request) with each
  account in round-robin order starting from `self.current_email`.

Python dicts are modelled as association lists in insertion order (keys
pairwise distinct), `time.sleep` calls and the identity of the account tried
are recorded in an event trace, and the caller-supplied unit of work is a
function from the call counter and the account email to an outcome.  File
persistence (`_save_accounts` / `_save_current_account`) mirrors the in-memory
fields it is called with, so the in-memory fields stand for both.
-/

namespace TermiTool

/-- Value stored for one account in the manager's dict
(`add_account`, lines 48-51: `{"api_key": ..., "added_at": ...}`). -/
structure AccountData where
  apiKey : String
  addedAt : String
deriving Repr, DecidableEq

/-- The manager's `self.accounts` dict: insertion-ordered email-to-data pairs. -/
abbrev AccountDict := List (String × AccountData)

/-- The keys of the dict, in insertion order (`list(self.accounts.keys())`,
which is also the email order produced by `list_accounts`, lines 63-72). -/
def keysOf (d : AccountDict) : List String := d.map Prod.fst

/-- Python `dict.get`: the value at the first (unique) matching key, else `None`. -/
def pyGet : AccountDict → String → Option AccountData
  | [], _ => none
  | (k, v) :: rest, x => if k = x then some v else pyGet rest x

/-- Python `list.index` wrapped in an option: `some` of the first matching
position, `none` where Python raises `ValueError` (line 209). -/
def pyIndex : List String → String → Option Nat
  | [], _ => none
  | a :: rest, x => if a = x then some 0 else (pyIndex rest x).map (· + 1)

/-- In-memory state of `GeminiAccountManager`: the accounts dict and the
current-account pointer (`self.accounts`, `self.current_account`; the files
written by `_save_accounts` / `_save_current_account` mirror exactly these). -/
structure ManagerState where
  accounts : AccountDict
  currentAccount : Option String
deriving Repr, DecidableEq

/-- `add_account` (lines 42-61).  `now` is the `datetime.now()` timestamp.
Returns the new state and the `(bool, message)` pair. -/
def addAccount (s : ManagerState) (email apiKey now : String) :
    ManagerState × Bool × String :=
  if email ∈ keysOf s.accounts then
    (s, false, "Account already exists")
  else
    let accounts' := s.accounts ++ [(email, ⟨apiKey, now⟩)]
    if accounts'.length = 1 then
      (⟨accounts', some email⟩, true, "Account added successfully")
    else
      (⟨accounts', s.currentAccount⟩, true, "Account added successfully")

/-- `switch_account` (lines 74-84). -/
def switchAccount (s : ManagerState) (email : String) :
    ManagerState × Bool × String :=
  if email ∈ keysOf s.accounts then
    (⟨s.accounts, some email⟩, true, "Successfully switched account")
  else
    (s, false, "Account not found")

/-- `del self.accounts[email]` (line 92): drop the pair with the given key. -/
def removeKey (d : AccountDict) (email : String) : AccountDict :=
  d.filter (fun p => p.1 != email)

/-- `delete_account` (lines 86-109).  If the deleted account was current, the
pointer moves to `next(iter(self.accounts.keys()))` (the first remaining key)
or is cleared when no account remains. -/
def deleteAccount (s : ManagerState) (email : String) :
    ManagerState × Bool × String :=
  if email ∈ keysOf s.accounts then
    let accounts' := removeKey s.accounts email
    if s.currentAccount = some email then
      match accounts' with
      | [] => (⟨accounts', none⟩, true, "Account deleted successfully")
      | p :: rest => (⟨p :: rest, some p.1⟩, true, "Account deleted successfully")
    else
      (⟨accounts', s.currentAccount⟩, true, "Account deleted successfully")
  else
    (s, false, "Account not found")

/-- `get_current_credentials` (lines 111-118).  Python's
`if not self.current_account` is true both for `None` and for the empty
string, hence the explicit empty-string test. -/
def getCurrentCred (s : ManagerState) : Option (String × String) :=
  match s.currentAccount with
  | none => none
  | some e =>
    if e = "" then none
    else
      match pyGet s.accounts e with
      | none => none
      | some d => some (e, d.apiKey)

/-- `MultimodalAnnotator._setup_initial_model` (lines 25-33): raises
`ValueError` when `get_current_credentials` returns a falsy value, otherwise
hands the `(email, api_key)` pair to `_switch_to_account`, which makes that
email the annotator's active account. -/
def setupInitialModel (s : ManagerState) : Except String (String × String) :=
  match getCurrentCred s with
  | none => Except.error "No Gemini accounts configured. Please add an account first."
  | some c => Except.ok c

/-- Outcome of one attempt of the unit of work against one account
(the body of the inner `try`, lines 139-196 of `image_annotator.py`):
a parsed list of annotations, a response that is not a well-formed list
(lines 188-196, falls through to rotation), or a raised exception with its
message (caught at line 198, also falls through to rotation). -/
inductive WorkOutcome (β : Type) where
  | success (val : List β)
  | invalidFormat
  | apiError (msg : String)
deriving Repr, DecidableEq

/-- `some` of the returned list on success, `none` on every other outcome. -/
def WorkOutcome.toSuccess {β : Type} : WorkOutcome β → Option (List β)
  | .success v => some v
  | _ => none

/-- The error classifier of lines 199-205: an exception whose lowercased text
contains "quota", "rate" or "limit" is rate-limit-like (transient); anything
else is logged as a permanent error.  The classification only selects the log
message - both branches fall through to the same rotation step. -/
def strContains (s sub : String) : Bool := (s.splitOn sub).length != 1

/-- Lowercase keyword sniff of line 204. -/
def isTransientMsg (msg : String) : Bool :=
  strContains msg.toLower "quota" || strContains msg.toLower "rate" ||
    strContains msg.toLower "limit"

/-- Observable events of one `_analyze_image` call: a unit of work sent with a
given account (line 161), the 1-second pause before the next account
(line 213, tagged with that next account), and the 5-second cool-down of the
retry branch (line 218). -/
inductive Event where
  | workCall (email : String)
  | sleepNext (email : String)
  | coolDown
deriving Repr, DecidableEq

/-- The email of a `workCall` event. -/
def Event.callOf : Event → Option String
  | .workCall e => some e
  | _ => none

/-- The accounts actually sent a unit of work, in order. -/
def workCalls (tr : List Event) : List String := tr.filterMap Event.callOf

/-- The `while` loop of `_analyze_image` (lines 132-221), fuel-indexed.

Arguments mirror the Python locals: `emails` is `accounts_list` (computed from
`all_accounts`, which is captured once at line 121 and never changes), `dict`
is `self.account_manager.accounts`, `startEmail` is `self.current_email`
(never reassigned inside the method), `tried` is `tried_accounts` (a set,
represented by its distinct members most-recent first), `current` is
`current_account`, `nCalls` counts the units of work sent so far (the argument
fed to the work function, so that work may behave differently across calls,
as a live API does), and `trace` accumulates events.

`none` means the fuel ran out; the termination lemmas below show the source
loop always exits within `emails.length + 1` iterations, because the loop
guard `len(tried_accounts) < len(all_accounts)` fails as soon as every
account has been tried - which also makes the retry branch (lines 215-221)
unreachable. -/
def rotateLoop {β : Type} (work : Nat → String → WorkOutcome β)
    (emails : List String) (dict : AccountDict) (startEmail : String) :
    Nat → List String → String → Nat → List Event → Option (List β × List Event)
  | 0, _, _, _, _ => none
  | fuel + 1, tried, current, nCalls, trace =>
    if tried.length < emails.length then
      if current ∈ tried then
        -- lines 215-221: cool down and clear once all accounts were tried,
        -- then restart from the annotator's active account
        if tried.length = emails.length then
          rotateLoop work emails dict startEmail fuel [] startEmail nCalls
            (trace ++ [Event.coolDown])
        else
          rotateLoop work emails dict startEmail fuel tried startEmail nCalls trace
      else
        -- lines 133-213: try the current account, then advance
        match pyGet dict current with
        | none =>
          -- account not in the dict: no request is sent; the advance at line
          -- 209 then raises ValueError, caught by the outer handler -> []
          match pyIndex emails current with
          | none => some ([], trace)
          | some idx =>
            rotateLoop work emails dict startEmail fuel (current :: tried)
              (emails.getD ((idx + 1) % emails.length) "") nCalls
              (trace ++ [Event.sleepNext (emails.getD ((idx + 1) % emails.length) "")])
        | some _ =>
          match work nCalls current with
          | .success v => some (v, trace ++ [Event.workCall current])
          | .invalidFormat | .apiError _ =>
            match pyIndex emails current with
            | none => some ([], trace ++ [Event.workCall current])
            | some idx =>
              rotateLoop work emails dict startEmail fuel (current :: tried)
                (emails.getD ((idx + 1) % emails.length) "") (nCalls + 1)
                (trace ++ [Event.workCall current,
                  Event.sleepNext (emails.getD ((idx + 1) % emails.length) "")])
    else
      -- loop guard fails: line 223, return []
      some ([], trace)

/-- `_analyze_image` (lines 110-230).  `loadOk` is whether reading the image
file (lines 115-116) succeeds; an exception there is caught by the outer
handler (line 226) and yields `[]`.  An empty account list yields `[]` at
line 124 before any request.  Otherwise the rotation loop runs, starting from
the annotator's active email with an empty tried-set. -/
def analyzeImage {β : Type} (loadOk : Bool) (work : Nat → String → WorkOutcome β)
    (accounts : AccountDict) (currentEmail : String) (fuel : Nat) :
    Option (List β × List Event) :=
  if !loadOk then some ([], [])
  else if (keysOf accounts).isEmpty then some ([], [])
  else rotateLoop work (keysOf accounts) accounts currentEmail fuel [] currentEmail 0 []

/-- State of a `MultimodalAnnotator` visible to `_analyze_image`: the
manager's store and the annotator's active email. -/
structure AnnotatorState where
  manager : ManagerState
  currentEmail : String
deriving Repr, DecidableEq

/-- `_analyze_image` as a state transformer.  The method body (lines 110-230)
only reads `self.account_manager.accounts` (lines 121, 135) and
`self.current_email` (lines 129, 221); it contains no assignment to either and
never calls `_save_accounts` or `_save_current_account`, so the state is
returned unchanged alongside the result. -/
def analyzeImageRun {β : Type} (loadOk : Bool) (work : Nat → String → WorkOutcome β)
    (fuel : Nat) (s : AnnotatorState) :
    AnnotatorState × Option (List β × List Event) :=
  (s, analyzeImage loadOk work s.manager.accounts s.currentEmail fuel)

/-- Replace the reason of every non-success outcome by the featureless
`invalidFormat`, keeping successes intact. -/
def eraseReasons {β : Type} (work : Nat → String → WorkOutcome β) :
    Nat → String → WorkOutcome β :=
  fun n e =>
    match work n e with
    | .success v => .success v
    | .invalidFormat => .invalidFormat
    | .apiError _ => .invalidFormat

/-- Round-robin visiting order of the loop when the active account sits at
position `i`: the keys rotated so that position `i` comes first
(`drop i ++ take i`). -/
def rotOf (d : AccountDict) (i : Nat) : List String := (keysOf d).rotate i

/-- The tried-set after `k` accounts have been tried, most recent first. -/
def triedAt (d : AccountDict) (i k : Nat) : List String :=
  ((rotOf d i).take k).reverse

/-- The `current_account` variable after `k` accounts have been tried. -/
def rotCur (d : AccountDict) (i k : Nat) : String :=
  (rotOf d i).getD (k % (keysOf d).length) ""

/-- The account-store invariant of claim C8: the current-account pointer is
`None` exactly when the accounts mapping is empty, and otherwise points at a
key of the mapping. -/
def invariantProp (s : ManagerState) : Prop :=
  (s.currentAccount = none ↔ s.accounts = []) ∧
  ∀ e, s.currentAccount = some e → e ∈ keysOf s.accounts

/-! ### Concrete accounts and work functions used in witnesses -/

/-- One account. -/
def dict1 : AccountDict := [("alice@x", ⟨"key1", "t1"⟩)]

/-- Two accounts in registration order, as in the spec's cool-down scenario. -/
def dict2 : AccountDict := [("a", ⟨"k1", "t1"⟩), ("b", ⟨"k2", "t2"⟩)]

/-- Three accounts in registration order, as in the spec's success scenario. -/
def dict3 : AccountDict :=
  [("a", ⟨"k1", "t1"⟩), ("b", ⟨"k2", "t2"⟩), ("c", ⟨"k3", "t3"⟩)]

/-- Work that always fails with a rate-limit-like (transient) message. -/
def wFailQuota : Nat → String → WorkOutcome Nat := fun _ _ => .apiError "quota exceeded"

/-- Work that always fails with a non-transient message. -/
def wFailKey : Nat → String → WorkOutcome Nat := fun _ _ => .apiError "invalid api key"

/-- Work that parses to an empty annotation list on every account. -/
def wEmptySucc : Nat → String → WorkOutcome Nat := fun _ _ => .success []

/-- Work that fails transiently for accounts `a` and `b` and succeeds for
`c`, as in the spec's three-credential scenario. -/
def wABC : Nat → String → WorkOutcome Nat :=
  fun _ e => if e = "c" then .success [7] else .apiError "rate limit reached"

/-- Work matching the spec's two-credential scenario, indexed by the call
counter: the first two calls fail permanently (cycle 1), the next two fail
transiently (cycle 2), and from the fifth call on it succeeds for `a`
(cycle 3). -/
def wCycles : Nat → String → WorkOutcome Nat := fun n e =>
  if 4 ≤ n ∧ e = "a" then .success [1]
  else if n < 2 then .apiError "invalid api key" else .apiError "quota exceeded"

/-- Annotator whose store holds `dict3` with `a` active. -/
def sABC : AnnotatorState := ⟨⟨dict3, some "a"⟩, "a"⟩

/-! ### Basic facts about the helpers -/

lemma getD_lt {α : Type} (l : List α) (n : Nat) (d : α) (h : n < l.length) :
    l.getD n d = l[n] := by
  simp [List.getD_eq_getElem?_getD, List.getElem?_eq_getElem h]

lemma mod_add_mod_left (a b N : Nat) : (a % N + b) % N = (a + b) % N := by
  conv_lhs => rw [Nat.add_mod]
  rw [Nat.mod_mod]
  exact (Nat.add_mod a b N).symm

lemma pyGet_isSome_of_mem (d : AccountDict) (e : String) (he : e ∈ keysOf d) :
    ∃ v, pyGet d e = some v := by
  induction d with
  | nil => simp [keysOf] at he
  | cons p rest ih =>
    obtain ⟨pk, pv⟩ := p
    by_cases h : pk = e
    · exact ⟨pv, by simp [pyGet, h]⟩
    · have hrest : e ∈ keysOf rest := by
        rcases (by simpa [keysOf] using he : e = pk ∨ e ∈ keysOf rest) with h' | h'
        · exact absurd h'.symm h
        · exact h'
      obtain ⟨v, hv⟩ := ih hrest
      exact ⟨v, by simp [pyGet, h, hv]⟩

lemma pyGet_eq_none_of_not_mem (d : AccountDict) (e : String) (he : e ∉ keysOf d) :
    pyGet d e = none := by
  induction d with
  | nil => rfl
  | cons p rest ih =>
    obtain ⟨pk, pv⟩ := p
    have hkeys : keysOf ((pk, pv) :: rest) = pk :: keysOf rest := rfl
    have h1 : pk ≠ e := fun h => he (hkeys ▸ (h ▸ List.mem_cons_self pk (keysOf rest)))
    have h2 : e ∉ keysOf rest := fun h => he (hkeys ▸ List.mem_cons_of_mem pk h)
    simp [pyGet, h1, ih h2]

lemma pyIndex_eq_none_of_not_mem (l : List String) (e : String) (he : e ∉ l) :
    pyIndex l e = none := by
  induction l with
  | nil => rfl
  | cons a rest ih =>
    have h1 : a ≠ e := fun h => he (h ▸ List.mem_cons_self a rest)
    have h2 : e ∉ rest := fun h => he (List.mem_cons_of_mem a h)
    simp [pyIndex, h1, ih h2]

lemma pyIndex_getElem :
    ∀ (l : List String) (j : Nat) (h : j < l.length), l.Nodup →
      pyIndex l l[j] = some j
  | a :: rest, 0, _, _ => by simp [pyIndex]
  | a :: rest, j + 1, h, hnd => by
    have hj : j < rest.length := by simpa using h
    have hget : (a :: rest)[j + 1] = rest[j] := by simp
    have hne : a ≠ rest[j] := by
      intro heq
      exact (List.nodup_cons.mp hnd).1 (heq ▸ List.getElem_mem hj)
    rw [hget]
    simp [pyIndex, hne, pyIndex_getElem rest j hj (List.nodup_cons.mp hnd).2]

lemma getElem_not_mem_take {α : Type} (l : List α) (hnd : l.Nodup) (k : Nat)
    (hk : k < l.length) : l[k] ∉ l.take k := by
  intro hmem
  have hnd' : (l.take k ++ l.drop k).Nodup := by
    rw [List.take_append_drop]; exact hnd
  have hdis := List.disjoint_of_nodup_append hnd'
  have hmemdrop : l[k] ∈ l.drop k := by
    rw [List.drop_eq_getElem_cons hk]; exact List.mem_cons_self _ _
  exact hdis hmem hmemdrop

/-! ### Facts about the rotation order -/

lemma rotOf_length (d : AccountDict) (i : Nat) :
    (rotOf d i).length = (keysOf d).length := List.length_rotate _ _

lemma rotOf_nodup (d : AccountDict) (i : Nat) (hnd : (keysOf d).Nodup) :
    (rotOf d i).Nodup := List.nodup_rotate.mpr hnd

lemma rotOf_getD (d : AccountDict) (i : Nat) (k : Nat)
    (hk : k < (keysOf d).length) :
    (rotOf d i).getD k "" = (keysOf d).getD ((k + i) % (keysOf d).length) "" := by
  have h1 : k < (rotOf d i).length := by rw [rotOf_length]; exact hk
  have hN : 0 < (keysOf d).length := by omega
  have h2 : (k + i) % (keysOf d).length < (keysOf d).length := Nat.mod_lt _ hN
  rw [getD_lt _ _ _ h1, getD_lt _ _ _ h2]
  exact List.getElem_rotate _ _ _ h1

lemma rotCur_eq (d : AccountDict) (i k : Nat) (hN : 0 < (keysOf d).length) :
    rotCur d i k = (keysOf d).getD ((k + i) % (keysOf d).length) "" := by
  unfold rotCur
  rw [rotOf_getD d i _ (Nat.mod_lt _ hN), mod_add_mod_left]

lemma rotCur_mem (d : AccountDict) (i k : Nat) (hN : 0 < (keysOf d).length) :
    rotCur d i k ∈ keysOf d := by
  rw [rotCur_eq d i k hN]
  have h : (k + i) % (keysOf d).length < (keysOf d).length := Nat.mod_lt _ hN
  rw [getD_lt _ _ _ h]
  exact List.getElem_mem h

lemma pyIndex_rotCur (d : AccountDict) (i k : Nat) (hnd : (keysOf d).Nodup)
    (hN : 0 < (keysOf d).length) :
    pyIndex (keysOf d) (rotCur d i k) = some ((k + i) % (keysOf d).length) := by
  rw [rotCur_eq d i k hN]
  have h : (k + i) % (keysOf d).length < (keysOf d).length := Nat.mod_lt _ hN
  rw [getD_lt _ _ _ h]
  exact pyIndex_getElem _ _ h hnd

lemma triedAt_length (d : AccountDict) (i k : Nat) (hk : k ≤ (keysOf d).length) :
    (triedAt d i k).length = k := by
  unfold triedAt
  rw [List.length_reverse, List.length_take, rotOf_length]
  omega

lemma triedAt_succ (d : AccountDict) (i k : Nat) (hk : k < (keysOf d).length) :
    triedAt d i (k + 1) = (rotOf d i).getD k "" :: triedAt d i k := by
  unfold triedAt
  have hk' : k < (rotOf d i).length := by rw [rotOf_length]; exact hk
  rw [getD_lt _ _ _ hk', List.take_succ, List.getElem?_eq_getElem hk']
  simp

lemma rotCur_not_mem_triedAt (d : AccountDict) (i k : Nat)
    (hnd : (keysOf d).Nodup) (hk : k < (keysOf d).length) :
    rotCur d i k ∉ triedAt d i k := by
  have hk' : k < (rotOf d i).length := by rw [rotOf_length]; exact hk
  have hcur : rotCur d i k = (rotOf d i)[k] := by
    unfold rotCur
    rw [Nat.mod_eq_of_lt hk, getD_lt _ _ _ hk']
  rw [hcur]
  unfold triedAt
  rw [List.mem_reverse]
  exact getElem_not_mem_take _ (rotOf_nodup d i hnd) k hk'

/-- The current account after `k + 1` tries, as the advance at lines 208-211
computes it from the index of the `k`-th one. -/
lemma next_eq_rotCur (d : AccountDict) (i k : Nat) (hN : 0 < (keysOf d).length) :
    (keysOf d).getD (((k + i) % (keysOf d).length + 1) % (keysOf d).length) "" =
      rotCur d i (k + 1) := by
  rw [rotCur_eq d i (k + 1) hN, mod_add_mod_left]
  congr 2
  omega

lemma rotCur_eq_getD (d : AccountDict) (i k : Nat) (hk : k < (keysOf d).length) :
    rotCur d i k = (rotOf d i).getD k "" := by
  unfold rotCur
  rw [Nat.mod_eq_of_lt hk]

lemma rotOf_drop_eq (d : AccountDict) (i k : Nat) (hk : k < (keysOf d).length) :
    (rotOf d i).drop k = rotCur d i k :: (rotOf d i).drop (k + 1) := by
  have hk' : k < (rotOf d i).length := by rw [rotOf_length]; exact hk
  rw [List.drop_eq_getElem_cons hk']
  congr 1
  rw [rotCur_eq_getD d i k hk, getD_lt _ _ _ hk']

/-! ### One iteration of the loop -/

/-- When every account has been tried, the loop guard fails and the call
returns the empty list (lines 132, 223-224). -/
lemma rotateLoop_exit {β : Type} (work : Nat → String → WorkOutcome β)
    (emails : List String) (dict : AccountDict) (start : String) (fuel : Nat)
    (tried : List String) (cur : String) (n : Nat) (trace : List Event)
    (h : ¬ tried.length < emails.length) :
    rotateLoop work emails dict start (fuel + 1) tried cur n trace =
      some ([], trace) := by
  simp only [rotateLoop, if_neg h]

/-- One untried account in the rotation: the work is sent once; on success the
parsed list is returned at once, otherwise the loop advances to the next
account in registration order. -/
lemma rotateLoop_step {β : Type} (work : Nat → String → WorkOutcome β)
    (dict : AccountDict) (start : String) (i k : Nat)
    (hnd : (keysOf dict).Nodup) (hk : k < (keysOf dict).length)
    (fuel n : Nat) (trace : List Event) :
    rotateLoop work (keysOf dict) dict start (fuel + 1) (triedAt dict i k)
        (rotCur dict i k) n trace =
      match work n (rotCur dict i k) with
      | .success v => some (v, trace ++ [Event.workCall (rotCur dict i k)])
      | .invalidFormat =>
        rotateLoop work (keysOf dict) dict start fuel (triedAt dict i (k + 1))
          (rotCur dict i (k + 1)) (n + 1)
          (trace ++ [Event.workCall (rotCur dict i k),
            Event.sleepNext (rotCur dict i (k + 1))])
      | .apiError _ =>
        rotateLoop work (keysOf dict) dict start fuel (triedAt dict i (k + 1))
          (rotCur dict i (k + 1)) (n + 1)
          (trace ++ [Event.workCall (rotCur dict i k),
            Event.sleepNext (rotCur dict i (k + 1))]) := by
  have hN : 0 < (keysOf dict).length := by omega
  have hlen : (triedAt dict i k).length < (keysOf dict).length := by
    rw [triedAt_length dict i k (le_of_lt hk)]; exact hk
  have hmem := rotCur_not_mem_triedAt dict i k hnd hk
  obtain ⟨v0, hget⟩ := pyGet_isSome_of_mem dict _ (rotCur_mem dict i k hN)
  have hidx := pyIndex_rotCur dict i k hnd hN
  have hnext : ((keysOf dict)[(k + i + 1) % (keysOf dict).length]?.getD "") =
      rotCur dict i (k + 1) := by
    have h := next_eq_rotCur dict i k hN
    simpa [mod_add_mod_left] using h
  have htried : rotCur dict i k :: triedAt dict i k = triedAt dict i (k + 1) := by
    rw [triedAt_succ dict i k hk, rotCur_eq_getD dict i k hk]
  simp only [rotateLoop, if_pos hlen, if_neg hmem, hget, hidx]
  cases hw : work n (rotCur dict i k) with
  | success v => simp
  | invalidFormat => simp [htried, hnext]
  | apiError m => simp [htried, hnext]

/-! ### Full runs of the loop -/

/-- When no unit of work ever succeeds, the run starting after `k` tried
accounts finishes the pass: it tries exactly the remaining accounts of the
rotation in order, never cools down, and returns the empty list. -/
lemma rotateLoop_allFail {β : Type} (work : Nat → String → WorkOutcome β)
    (dict : AccountDict) (start : String) (i : Nat)
    (hnd : (keysOf dict).Nodup)
    (hfail : ∀ n e, (work n e).toSuccess = none) :
    ∀ d k, k + d = (keysOf dict).length → ∀ fuel n trace, d < fuel →
      ∃ tail,
        rotateLoop work (keysOf dict) dict start fuel (triedAt dict i k)
            (rotCur dict i k) n trace = some ([], trace ++ tail) ∧
        workCalls tail = (rotOf dict i).drop k ∧
        Event.coolDown ∉ tail := by
  intro d
  induction d with
  | zero =>
    intro k hk fuel n trace hfuel
    obtain ⟨f, rfl⟩ : ∃ f, fuel = f + 1 := ⟨fuel - 1, by omega⟩
    refine ⟨[], ?_, ?_, by simp⟩
    · rw [rotateLoop_exit]
      · simp
      · rw [triedAt_length dict i k (by omega)]; omega
    · rw [List.drop_eq_nil_of_le (by rw [rotOf_length]; omega)]
      simp [workCalls]
  | succ d ih =>
    intro k hk fuel n trace hfuel
    have hkN : k < (keysOf dict).length := by omega
    obtain ⟨f, rfl⟩ : ∃ f, fuel = f + 1 := ⟨fuel - 1, by omega⟩
    rw [rotateLoop_step work dict start i k hnd hkN]
    cases hw : work n (rotCur dict i k) with
    | success v =>
      exact absurd (hfail n (rotCur dict i k)) (by simp [hw, WorkOutcome.toSuccess])
    | invalidFormat =>
      obtain ⟨tail, heq, hcalls, hcool⟩ :=
        ih (k + 1) (by omega) f (n + 1)
          (trace ++ [Event.workCall (rotCur dict i k),
            Event.sleepNext (rotCur dict i (k + 1))]) (by omega)
      refine ⟨Event.workCall (rotCur dict i k) ::
          Event.sleepNext (rotCur dict i (k + 1)) :: tail, ?_, ?_, ?_⟩
      · rw [heq]; simp
      · simp [workCalls, Event.callOf, rotOf_drop_eq dict i k hkN]
        simpa [workCalls] using hcalls
      · simpa using hcool
    | apiError msg₀ =>
      obtain ⟨tail, heq, hcalls, hcool⟩ :=
        ih (k + 1) (by omega) f (n + 1)
          (trace ++ [Event.workCall (rotCur dict i k),
            Event.sleepNext (rotCur dict i (k + 1))]) (by omega)
      refine ⟨Event.workCall (rotCur dict i k) ::
          Event.sleepNext (rotCur dict i (k + 1)) :: tail, ?_, ?_, ?_⟩
      · rw [heq]; simp
      · simp [workCalls, Event.callOf, rotOf_drop_eq dict i k hkN]
        simpa [workCalls] using hcalls
      · simpa using hcool

/-- When the first success of the pass happens at rotation position `m`, the
run returns that success value at once: only the accounts at rotation
positions up to `m` are sent work, and no cool-down happens. -/
lemma rotateLoop_success {β : Type} (work : Nat → String → WorkOutcome β)
    (dict : AccountDict) (start : String) (i m : Nat) (v : List β)
    (hnd : (keysOf dict).Nodup) (hm : m < (keysOf dict).length) :
    ∀ d k n, k + d = (keysOf dict).length → k ≤ m →
      (∀ j, k ≤ j → j < m →
        (work (n + (j - k)) ((rotOf dict i).getD j "")).toSuccess = none) →
      work (n + (m - k)) ((rotOf dict i).getD m "") = .success v →
      ∀ fuel trace, d < fuel →
        ∃ tail,
          rotateLoop work (keysOf dict) dict start fuel (triedAt dict i k)
              (rotCur dict i k) n trace = some (v, trace ++ tail) ∧
          workCalls tail = ((rotOf dict i).drop k).take (m + 1 - k) ∧
          Event.coolDown ∉ tail := by
  intro d
  induction d with
  | zero =>
    intro k n hk hkm _ _ fuel trace hfuel
    omega
  | succ d ih =>
    intro k n hk hkm hfails hsucc fuel trace hfuel
    have hkN : k < (keysOf dict).length := by omega
    obtain ⟨f, rfl⟩ : ∃ f, fuel = f + 1 := ⟨fuel - 1, by omega⟩
    rw [rotateLoop_step work dict start i k hnd hkN]
    by_cases hkm' : k = m
    · subst hkm'
      have hs : work n (rotCur dict i k) = .success v := by
        rw [rotCur_eq_getD dict i k hkN]
        simpa using hsucc
      rw [hs]
      refine ⟨[Event.workCall (rotCur dict i k)], rfl, ?_, by simp⟩
      rw [rotOf_drop_eq dict i k hkN]
      simp [workCalls, Event.callOf]
    · have hklt : k < m := by omega
      have hfk : (work n (rotCur dict i k)).toSuccess = none := by
        rw [rotCur_eq_getD dict i k hkN]
        simpa using hfails k (le_refl k) hklt
      have hfails' : ∀ j, k + 1 ≤ j → j < m →
          (work ((n + 1) + (j - (k + 1))) ((rotOf dict i).getD j "")).toSuccess = none := by
        intro j h1 h2
        have harith : (n + 1) + (j - (k + 1)) = n + (j - k) := by omega
        rw [harith]
        exact hfails j (by omega) h2
      have hsucc' : work ((n + 1) + (m - (k + 1))) ((rotOf dict i).getD m "") =
          .success v := by
        have harith : (n + 1) + (m - (k + 1)) = n + (m - k) := by omega
        rw [harith]
        exact hsucc
      obtain ⟨tail, heq, hcalls, hcool⟩ :=
        ih (k + 1) (n + 1) (by omega) (by omega) hfails' hsucc' f
          (trace ++ [Event.workCall (rotCur dict i k),
            Event.sleepNext (rotCur dict i (k + 1))]) (by omega)
      cases hw : work n (rotCur dict i k) with
      | success v' => rw [hw] at hfk; simp [WorkOutcome.toSuccess] at hfk
      | invalidFormat =>
        refine ⟨Event.workCall (rotCur dict i k) ::
            Event.sleepNext (rotCur dict i (k + 1)) :: tail, ?_, ?_, ?_⟩
        · rw [heq]; simp
        · have htake : ((rotOf dict i).drop k).take (m + 1 - k) =
              rotCur dict i k :: (((rotOf dict i).drop (k + 1)).take (m + 1 - (k + 1))) := by
            rw [rotOf_drop_eq dict i k hkN]
            have h1 : m + 1 - k = (m + 1 - (k + 1)) + 1 := by omega
            rw [h1, List.take_succ_cons]
          rw [htake]
          simpa [workCalls, Event.callOf] using hcalls
        · simpa using hcool
      | apiError msg₀ =>
        refine ⟨Event.workCall (rotCur dict i k) ::
            Event.sleepNext (rotCur dict i (k + 1)) :: tail, ?_, ?_, ?_⟩
        · rw [heq]; simp
        · have htake : ((rotOf dict i).drop k).take (m + 1 - k) =
              rotCur dict i k :: (((rotOf dict i).drop (k + 1)).take (m + 1 - (k + 1))) := by
            rw [rotOf_drop_eq dict i k hkN]
            have h1 : m + 1 - k = (m + 1 - (k + 1)) + 1 := by omega
            rw [h1, List.take_succ_cons]
          rw [htake]
          simpa [workCalls, Event.callOf] using hcalls
        · simpa using hcool

/-- Whatever the work does, the run always terminates with a result: either
the parsed list of the first success, or the empty list. -/
lemma rotateLoop_total {β : Type} (work : Nat → String → WorkOutcome β)
    (dict : AccountDict) (start : String) (i : Nat)
    (hnd : (keysOf dict).Nodup) :
    ∀ d k, k + d = (keysOf dict).length → ∀ fuel n trace, d < fuel →
      ∃ r tail,
        rotateLoop work (keysOf dict) dict start fuel (triedAt dict i k)
            (rotCur dict i k) n trace = some (r, trace ++ tail) ∧
        (r = [] ∨ ∃ n' e', work n' e' = .success r) := by
  intro d
  induction d with
  | zero =>
    intro k hk fuel n trace hfuel
    obtain ⟨f, rfl⟩ : ∃ f, fuel = f + 1 := ⟨fuel - 1, by omega⟩
    refine ⟨[], [], ?_, Or.inl rfl⟩
    rw [rotateLoop_exit]
    · simp
    · rw [triedAt_length dict i k (by omega)]; omega
  | succ d ih =>
    intro k hk fuel n trace hfuel
    have hkN : k < (keysOf dict).length := by omega
    obtain ⟨f, rfl⟩ : ∃ f, fuel = f + 1 := ⟨fuel - 1, by omega⟩
    rw [rotateLoop_step work dict start i k hnd hkN]
    cases hw : work n (rotCur dict i k) with
    | success v =>
      exact ⟨v, [Event.workCall (rotCur dict i k)], rfl,
        Or.inr ⟨n, rotCur dict i k, hw⟩⟩
    | invalidFormat =>
      obtain ⟨r, tail, heq, hr⟩ := ih (k + 1) (by omega) f (n + 1)
        (trace ++ [Event.workCall (rotCur dict i k),
          Event.sleepNext (rotCur dict i (k + 1))]) (by omega)
      exact ⟨r, Event.workCall (rotCur dict i k) ::
        Event.sleepNext (rotCur dict i (k + 1)) :: tail, by rw [heq]; simp, hr⟩
    | apiError msg₀ =>
      obtain ⟨r, tail, heq, hr⟩ := ih (k + 1) (by omega) f (n + 1)
        (trace ++ [Event.workCall (rotCur dict i k),
          Event.sleepNext (rotCur dict i (k + 1))]) (by omega)
      exact ⟨r, Event.workCall (rotCur dict i k) ::
        Event.sleepNext (rotCur dict i (k + 1)) :: tail, by rw [heq]; simp, hr⟩

/-- With a non-empty account list and an intact image load, `_analyze_image`
is the rotation loop started from the active email and an empty tried set. -/
lemma analyzeImage_eq_loop {β : Type} (work : Nat → String → WorkOutcome β)
    (dict : AccountDict) (cur : String) (fuel : Nat)
    (hN : 0 < (keysOf dict).length) :
    analyzeImage true work dict cur fuel =
      rotateLoop work (keysOf dict) dict cur fuel [] cur 0 [] := by
  unfold analyzeImage
  have hne : (keysOf dict).isEmpty = false := by
    cases h : keysOf dict with
    | nil => rw [h] at hN; simp at hN
    | cons a l => simp
  simp [hne]

/-- The loop never inspects the reason of a failed outcome (lines 198-205 only
print it): erasing every reason leaves the run unchanged. -/
lemma rotateLoop_eraseReasons {β : Type} (work : Nat → String → WorkOutcome β)
    (emails : List String) (dict : AccountDict) (start : String) :
    ∀ fuel tried cur n trace,
      rotateLoop (eraseReasons work) emails dict start fuel tried cur n trace =
        rotateLoop work emails dict start fuel tried cur n trace := by
  intro fuel
  induction fuel with
  | zero => intro tried cur n trace; rfl
  | succ f ih =>
    intro tried cur n trace
    simp only [rotateLoop]
    by_cases h1 : tried.length < emails.length
    · simp only [if_pos h1]
      by_cases h2 : cur ∈ tried
      · simp only [if_pos h2]
        by_cases h3 : tried.length = emails.length
        · simp only [if_pos h3, ih]
        · simp only [if_neg h3, ih]
      · simp only [if_neg h2]
        cases hget : pyGet dict cur with
        | none =>
          cases hidx : pyIndex emails cur with
          | none => rfl
          | some idx => simp only [ih]
        | some vd =>
          cases hw : work n cur with
          | success v => simp [eraseReasons, hw]
          | invalidFormat => simp [eraseReasons, hw, ih]
          | apiError msg₀ => simp [eraseReasons, hw, ih]
    · simp only [if_neg h1]

/-- Reason erasure commutes with the whole of `_analyze_image`. -/
lemma analyzeImage_eraseReasons {β : Type} (loadOk : Bool)
    (work : Nat → String → WorkOutcome β) (dict : AccountDict) (cur : String)
    (fuel : Nat) :
    analyzeImage loadOk (eraseReasons work) dict cur fuel =
      analyzeImage loadOk work dict cur fuel := by
  cases loadOk <;> simp [analyzeImage, rotateLoop_eraseReasons]

/-- Keys survive the removal of a different key. -/
lemma mem_keysOf_removeKey (d : AccountDict) (x e : String)
    (he : e ∈ keysOf d) (hne : e ≠ x) : e ∈ keysOf (removeKey d x) := by
  unfold keysOf at he ⊢
  obtain ⟨p, hp, hpe⟩ := List.mem_map.mp he
  refine List.mem_map.mpr ⟨p, ?_, hpe⟩
  unfold removeKey
  refine List.mem_filter.mpr ⟨hp, ?_⟩
  simp [hpe, hne]

/-! ### Claim theorems -/

/-- Claim C1: with a non-empty account set of `N` distinct emails and active
account at position `i`, when no unit of work succeeds, `_analyze_image`
visits the accounts exactly in the round-robin order
`i, i+1, …, N-1, 0, …, i-1` (`rotOf dict i = drop i ++ take i`): the visited
accounts are `N`, pairwise distinct, and no cool-down event occurs at any
point of the call.  The conclusion is the same for every never-succeeding
work function, whatever mix of rate-limit-like (transient) and other
(permanent) failure messages it produces, so a permanent failure causes
exactly the same skip-and-advance as a transient one. -/
theorem execute_roundRobin_allFail {β : Type} (work : Nat → String → WorkOutcome β)
    (dict : AccountDict) (i : Nat)
    (hnd : (keysOf dict).Nodup) (hi : i < (keysOf dict).length)
    (hfail : ∀ n e, (work n e).toSuccess = none)
    (fuel : Nat) (hfuel : (keysOf dict).length < fuel) :
    ∃ tr,
      analyzeImage true work dict ((keysOf dict).getD i "") fuel = some ([], tr) ∧
      workCalls tr = rotOf dict i ∧
      (rotOf dict i).Nodup ∧
      (rotOf dict i).length = (keysOf dict).length ∧
      Event.coolDown ∉ tr := by
  have hN : 0 < (keysOf dict).length := by omega
  have hstart : (keysOf dict).getD i "" = rotCur dict i 0 := by
    rw [rotCur_eq dict i 0 hN]
    congr 1
    rw [Nat.zero_add, Nat.mod_eq_of_lt hi]
  obtain ⟨tail, heq, hcalls, hcool⟩ :=
    rotateLoop_allFail work dict (rotCur dict i 0) i hnd hfail
      (keysOf dict).length 0 (by omega) fuel 0 [] (by omega)
  refine ⟨tail, ?_, by simpa using hcalls, rotOf_nodup dict i hnd,
    rotOf_length dict i, hcool⟩
  rw [analyzeImage_eq_loop work dict _ fuel hN, hstart]
  simpa [show triedAt dict i 0 = [] from rfl] using heq

/-- Witness for C1: three accounts with active position 1 and always-transient
failures; the visiting order is `b, c, a`. -/
theorem execute_roundRobin_allFail_witness :
    ∃ tr,
      analyzeImage true wFailQuota dict3 ((keysOf dict3).getD 1 "") 4 =
        some (([] : List Nat), tr) ∧
      workCalls tr = rotOf dict3 1 ∧
      (rotOf dict3 1).Nodup ∧
      (rotOf dict3 1).length = (keysOf dict3).length ∧
      Event.coolDown ∉ tr :=
  execute_roundRobin_allFail wFailQuota dict3 1 (by decide) (by decide)
    (fun _ _ => rfl) 4 (by decide)

/-- Claim C2 (run at the failing input): two accounts `a, b`, active `a`, with
work that fails both calls of the first pass (permanently), would fail the
second pass transiently and would succeed for `a` from the fifth call on.
The source exits its loop as soon as `len(tried_accounts)` reaches
`len(all_accounts)` (line 132), so the retry branch of lines 215-221 is never
reached: the call performs exactly one pass, with no cool-down event, and
returns the empty list instead of ever reaching the success available on
cycle 3. -/
theorem execute_no_second_cycle_at_failing_input :
    analyzeImage true wCycles dict2 "a" 10 =
      some (([] : List Nat), [Event.workCall "a", Event.sleepNext "b",
        Event.workCall "b", Event.sleepNext "a"]) ∧
    wCycles 4 "a" = .success [1] := by
  constructor
  · decide
  · decide

/-- Claim C3 counterexample: three accounts `a, b, c` with `a` active; work
fails transiently for `a` and `b` and succeeds for `c` (position 2), yet
after the call the annotator's active email is still `a`, not `c`:
`_analyze_image` (lines 110-230) contains no assignment to
`self.current_email`. -/
theorem execute_success_active_not_updated_counterexample :
    (analyzeImageRun true wABC 5 sABC).2 =
      some ([7], [Event.workCall "a", Event.sleepNext "b", Event.workCall "b",
        Event.sleepNext "c", Event.workCall "c"]) ∧
    (analyzeImageRun true wABC 5 sABC).1.currentEmail = "a" ∧
    ("a" : String) ≠ "c" := by
  refine ⟨by decide, by decide, by decide⟩

/-- Claim C3 (amended): if the credential at rotation position `m` is the
first to succeed, `_analyze_image` returns its value immediately - only the
first `m + 1` accounts of the rotation are sent work and no cool-down
happens - but the annotator state (in particular the active email) is left
exactly as it was at entry: the active account is NOT moved to the one that
succeeded. -/
theorem execute_firstSuccess_immediate_activeUnchanged {β : Type}
    (work : Nat → String → WorkOutcome β) (s : AnnotatorState) (i m : Nat)
    (v : List β)
    (hnd : (keysOf s.manager.accounts).Nodup)
    (hi : i < (keysOf s.manager.accounts).length)
    (hcur : s.currentEmail = (keysOf s.manager.accounts).getD i "")
    (hm : m < (keysOf s.manager.accounts).length)
    (hfail : ∀ j, j < m →
      (work j ((rotOf s.manager.accounts i).getD j "")).toSuccess = none)
    (hsucc : work m ((rotOf s.manager.accounts i).getD m "") = .success v)
    (fuel : Nat) (hfuel : (keysOf s.manager.accounts).length < fuel) :
    ∃ tr, (analyzeImageRun true work fuel s).2 = some (v, tr) ∧
      workCalls tr = (rotOf s.manager.accounts i).take (m + 1) ∧
      Event.coolDown ∉ tr ∧
      (analyzeImageRun true work fuel s).1 = s := by
  have hN : 0 < (keysOf s.manager.accounts).length := by omega
  have hstart : s.currentEmail = rotCur s.manager.accounts i 0 := by
    rw [hcur, rotCur_eq s.manager.accounts i 0 hN]
    congr 1
    rw [Nat.zero_add, Nat.mod_eq_of_lt hi]
  have hfails0 : ∀ j, 0 ≤ j → j < m →
      (work (0 + (j - 0)) ((rotOf s.manager.accounts i).getD j "")).toSuccess
        = none := by
    intro j _ h2
    simpa using hfail j h2
  have hsucc0 : work (0 + (m - 0)) ((rotOf s.manager.accounts i).getD m "")
      = .success v := by simpa using hsucc
  obtain ⟨tail, heq, hcalls, hcool⟩ :=
    rotateLoop_success work s.manager.accounts (rotCur s.manager.accounts i 0)
      i m v hnd hm (keysOf s.manager.accounts).length 0 0 (by omega)
      (by omega) hfails0 hsucc0 fuel [] (by omega)
  refine ⟨tail, ?_, by simpa using hcalls, hcool, rfl⟩
  show analyzeImage true work s.manager.accounts s.currentEmail fuel = _
  rw [analyzeImage_eq_loop work s.manager.accounts _ fuel hN, hstart]
  simpa [show triedAt s.manager.accounts i 0 = [] from rfl] using heq

/-- Witness for the amended C3 at the spec's three-credential scenario. -/
theorem execute_firstSuccess_immediate_activeUnchanged_witness :
    ∃ tr, (analyzeImageRun true wABC 5 sABC).2 = some ([7], tr) ∧
      workCalls tr = (rotOf sABC.manager.accounts 0).take 3 ∧
      Event.coolDown ∉ tr ∧
      (analyzeImageRun true wABC 5 sABC).1 = sABC :=
  execute_firstSuccess_immediate_activeUnchanged wABC sABC 0 2 [7]
    (by decide) (by decide) (by decide) (by decide) (by decide) (by decide)
    5 (by decide)

/-- Claim C4 counterexample: on the empty credential set `_analyze_image`
returns the plain empty list (line 124) - the very same value that a work
function whose response parses to an empty annotation list produces on
success - so the caller receives no distinguished `NoCredentialsError`
value. -/
theorem execute_emptySet_counterexample :
    (analyzeImage true wFailQuota ([] : AccountDict) "x" 5).map Prod.fst =
      some ([] : List Nat) ∧
    (analyzeImage true wEmptySucc dict1 "alice@x" 5).map Prod.fst =
      some ([] : List Nat) := by
  refine ⟨by decide, by decide⟩

/-- Claim C4 (amended): on an empty credential set `_analyze_image` returns
immediately with the empty list and an empty event trace - in particular the
work function is never invoked - but that is the ordinary empty-list value,
not a distinguished `NoCredentialsError`; the distinguished error
(`ValueError`) for a missing credential is raised only at construction by
`_setup_initial_model`. -/
theorem execute_emptySet_returns_empty_noWork {β : Type}
    (work : Nat → String → WorkOutcome β) (cur : String) (fuel : Nat) :
    analyzeImage true work ([] : AccountDict) cur fuel = some ([], []) ∧
    ∀ s : ManagerState, s.accounts = [] →
      setupInitialModel s =
        Except.error "No Gemini accounts configured. Please add an account first." := by
  constructor
  · rfl
  · intro s hs
    unfold setupInitialModel getCurrentCred
    cases hc : s.currentAccount with
    | none => rfl
    | some e =>
      by_cases he : e = ""
      · simp [he]
      · rw [hs]
        simp [he, pyGet]

/-- Witness for the amended C4. -/
theorem execute_emptySet_returns_empty_noWork_witness :
    analyzeImage true wFailQuota ([] : AccountDict) "x" 3 =
      some (([] : List Nat), []) ∧
    setupInitialModel ⟨[], none⟩ =
      Except.error "No Gemini accounts configured. Please add an account first." :=
  ⟨(execute_emptySet_returns_empty_noWork wFailQuota "x" 3).1,
   (execute_emptySet_returns_empty_noWork wFailQuota "x" 3).2 ⟨[], none⟩ rfl⟩

/-- Claim C5 counterexample: a store holding one account but with the
current-account pointer unset.  `get_current_credentials` returns `None`
(line 113-114), so construction raises `ValueError` instead of defaulting
the active index to the first credential. -/
theorem setup_pointer_unset_counterexample :
    setupInitialModel ⟨dict1, none⟩ =
      Except.error "No Gemini accounts configured. Please add an account first." ∧
    dict1 ≠ [] := by
  refine ⟨rfl, by decide⟩

/-- Claim C5 (amended): at rotator construction the active account is seeded
from the store's current-account pointer whenever the pointer holds a
non-empty email present in the store; when the pointer is unset, construction
fails with `ValueError` even for a non-empty credential set - there is no
defaulting to the first credential.  (The pointer being set for a non-empty
store is maintained by the account-manager operations instead.) -/
theorem setup_seeds_from_pointer (s : ManagerState) :
    (∀ e d, s.currentAccount = some e → e ≠ "" → pyGet s.accounts e = some d →
      setupInitialModel s = Except.ok (e, d.apiKey)) ∧
    (s.currentAccount = none →
      setupInitialModel s =
        Except.error "No Gemini accounts configured. Please add an account first.") := by
  constructor
  · intro e d he hne hget
    unfold setupInitialModel getCurrentCred
    rw [he]
    simp [hne, hget]
  · intro h
    unfold setupInitialModel getCurrentCred
    rw [h]

/-- Witness for the amended C5. -/
theorem setup_seeds_from_pointer_witness :
    setupInitialModel ⟨dict1, some "alice@x"⟩ = Except.ok ("alice@x", "key1") :=
  (setup_seeds_from_pointer ⟨dict1, some "alice@x"⟩).1 "alice@x" ⟨"key1", "t1"⟩
    rfl (by decide) (by decide)

/-- Claim C6 counterexample: two work functions that fail with different
reasons on every account ("quota exceeded", rate-limit-like, versus
"invalid api key", permanent) give bit-for-bit identical results: the
returned value is the bare empty list, carrying no per-credential failure
reason at all (reasons are only printed, lines 190-205). -/
theorem execute_exhausted_noReason_counterexample :
    analyzeImage true wFailQuota dict2 "a" 5 =
      analyzeImage true wFailKey dict2 "a" 5 ∧
    analyzeImage true wFailQuota dict2 "a" 5 =
      some (([] : List Nat), [Event.workCall "a", Event.sleepNext "b",
        Event.workCall "b", Event.sleepNext "a"]) ∧
    wFailQuota 0 "a" ≠ wFailKey 0 "a" := by
  refine ⟨by decide, by decide, by decide⟩

/-- Claim C6 (amended): when the pass completes without success (the code's
implicit retry bound is a single exhaustion cycle), `_analyze_image` returns
the empty list, not an `ExhaustedError` carrying per-credential reasons: the
result is invariant under erasing every failure reason the works produced,
so no failure reason observed during the call is surfaced in the returned
value - failures are only logged to the console. -/
theorem execute_exhaustion_empty_noReasons {β : Type}
    (work : Nat → String → WorkOutcome β) (dict : AccountDict) (i : Nat)
    (hnd : (keysOf dict).Nodup) (hi : i < (keysOf dict).length)
    (hfail : ∀ n e, (work n e).toSuccess = none)
    (fuel : Nat) (hfuel : (keysOf dict).length < fuel) :
    (∃ tr, analyzeImage true work dict ((keysOf dict).getD i "") fuel =
      some ([], tr)) ∧
    ∀ (loadOk : Bool) (cur : String) (f : Nat),
      analyzeImage loadOk (eraseReasons work) dict cur f =
        analyzeImage loadOk work dict cur f := by
  constructor
  · have hN : 0 < (keysOf dict).length := by omega
    have hstart : (keysOf dict).getD i "" = rotCur dict i 0 := by
      rw [rotCur_eq dict i 0 hN]
      congr 1
      rw [Nat.zero_add, Nat.mod_eq_of_lt hi]
    obtain ⟨tail, heq, -, -⟩ :=
      rotateLoop_allFail work dict (rotCur dict i 0) i hnd hfail
        (keysOf dict).length 0 (by omega) fuel 0 [] (by omega)
    refine ⟨tail, ?_⟩
    rw [analyzeImage_eq_loop work dict _ fuel hN, hstart]
    simpa [show triedAt dict i 0 = [] from rfl] using heq
  · intro loadOk cur f
    exact analyzeImage_eraseReasons loadOk work dict cur f

/-- Witness for the amended C6. -/
theorem execute_exhaustion_empty_noReasons_witness :
    (∃ tr, analyzeImage true wFailKey dict2 ((keysOf dict2).getD 0 "") 3 =
      some (([] : List Nat), tr)) ∧
    ∀ (loadOk : Bool) (cur : String) (f : Nat),
      analyzeImage loadOk (eraseReasons wFailKey) dict2 cur f =
        analyzeImage loadOk wFailKey dict2 cur f :=
  execute_exhaustion_empty_noReasons wFailKey dict2 0 (by decide) (by decide)
    (fun _ _ => rfl) 3 (by decide)

/-- Claim C7: `_analyze_image` never mutates the external account store: the
stored accounts mapping and the persisted current-account pointer are
identical before and after the call, for every work function, image-load
outcome and fuel.  The method body (lines 110-230) only reads the store
(lines 121, 135) and never calls `_save_accounts` or
`_save_current_account`. -/
theorem execute_never_mutates_store {β : Type} (loadOk : Bool)
    (work : Nat → String → WorkOutcome β) (fuel : Nat) (s : AnnotatorState) :
    (analyzeImageRun loadOk work fuel s).1.manager.accounts =
      s.manager.accounts ∧
    (analyzeImageRun loadOk work fuel s).1.manager.currentAccount =
      s.manager.currentAccount :=
  ⟨rfl, rfl⟩

/-- Claim C8: the account-store invariant - `current_account` is `None` iff
the accounts mapping is empty, and otherwise names a key of the mapping - is
preserved by `add_account`, `switch_account` and `delete_account`, on their
success paths as well as on their checked-failure paths, whenever it holds
before the operation. -/
theorem manager_ops_preserve_invariant (s : ManagerState)
    (hinv : invariantProp s) :
    (∀ e k t, invariantProp (addAccount s e k t).1) ∧
    (∀ e, invariantProp (switchAccount s e).1) ∧
    (∀ e, invariantProp (deleteAccount s e).1) := by
  obtain ⟨hiff, hkey⟩ := hinv
  refine ⟨?_, ?_, ?_⟩
  · -- add_account
    intro e k t
    unfold addAccount
    by_cases hmem : e ∈ keysOf s.accounts
    · rw [if_pos hmem]
      exact ⟨hiff, hkey⟩
    · rw [if_neg hmem]
      by_cases hlen : (s.accounts ++ [(e, (⟨k, t⟩ : AccountData))]).length = 1
      · rw [if_pos hlen]
        have hsacc : s.accounts = [] := by
          cases hc : s.accounts with
          | nil => rfl
          | cons p rest => rw [hc] at hlen; simp at hlen
        refine ⟨⟨fun h => (nomatch h), fun h => (by rw [hsacc] at h; simp at h)⟩, ?_⟩
        intro e' he'
        cases he'
        rw [hsacc]
        simp [keysOf]
      · rw [if_neg hlen]
        have hsne : s.accounts ≠ [] := by
          intro h
          rw [h] at hlen
          simp at hlen
        cases hc : s.currentAccount with
        | none => exact absurd (hiff.mp hc) hsne
        | some c =>
          refine ⟨⟨fun h => (nomatch h), fun h => (by simp at h)⟩, ?_⟩
          intro e' he'
          have hce : e' = c := by
            have h2 : some c = some e' := he'
            exact (Option.some_inj.mp h2).symm
          subst hce
          have hmemc := hkey e' hc
          simp only [keysOf, List.map_append] at *
          exact List.mem_append_left _ hmemc
  · -- switch_account
    intro e
    unfold switchAccount
    by_cases hmem : e ∈ keysOf s.accounts
    · rw [if_pos hmem]
      have hsne : s.accounts ≠ [] := by
        intro h
        rw [h] at hmem
        simp [keysOf] at hmem
      refine ⟨⟨fun h => (nomatch h), fun h => absurd h hsne⟩, ?_⟩
      intro e' he'
      have : e' = e := Option.some_inj.mp he'.symm
      subst this
      exact hmem
    · rw [if_neg hmem]
      exact ⟨hiff, hkey⟩
  · -- delete_account
    intro e
    unfold deleteAccount
    by_cases hmem : e ∈ keysOf s.accounts
    · rw [if_pos hmem]
      by_cases hcur : s.currentAccount = some e
      · rw [if_pos hcur]
        cases hrem : removeKey s.accounts e with
        | nil => exact ⟨⟨fun _ => rfl, fun _ => rfl⟩, fun e' he' => nomatch he'⟩
        | cons p rest =>
          refine ⟨⟨fun h => (nomatch h), fun h => (by simp at h)⟩, ?_⟩
          intro e' he'
          have : e' = p.1 := Option.some_inj.mp he'.symm
          subst this
          simp [keysOf]
      · rw [if_neg hcur]
        cases hc : s.currentAccount with
        | none =>
          have hsacc := hiff.mp hc
          rw [hsacc] at hmem
          simp [keysOf] at hmem
        | some c =>
          have hcne : c ≠ e := by
            intro h
            exact hcur (by rw [hc, h])
          have hcmem := mem_keysOf_removeKey s.accounts e c (hkey c hc) hcne
          have hremne : removeKey s.accounts e ≠ [] := by
            intro h
            rw [h] at hcmem
            simp [keysOf] at hcmem
          exact ⟨⟨fun h => (nomatch h), fun h => absurd h hremne⟩,
            fun e' he' => by
              have : e' = c := Option.some_inj.mp he'.symm
              subst this
              exact hcmem⟩
    · rw [if_neg hmem]
      exact ⟨hiff, hkey⟩

/-- Witness for C8: adding a fresh account to a well-formed one-account
store preserves the invariant. -/
theorem manager_ops_preserve_invariant_witness :
    invariantProp (addAccount ⟨dict1, some "alice@x"⟩ "bob@x" "key2" "t2").1 := by
  have hinv : invariantProp ⟨dict1, some "alice@x"⟩ := by
    refine ⟨⟨fun h => (nomatch h), fun h => by simp [dict1] at h⟩, ?_⟩
    intro e he
    cases he
    decide
  exact (manager_ops_preserve_invariant _ hinv).1 "bob@x" "key2" "t2"

/-- Claim C9: `add_account` on an email already present, and `switch_account`
or `delete_account` on an email not present, return `(False, message)` before
touching anything: the accounts mapping and the current-account pointer are
returned exactly as they were (lines 44-46, 76-78, 88-90). -/
theorem manager_errorPaths_atomic (s : ManagerState) :
    (∀ e k t, e ∈ keysOf s.accounts →
      addAccount s e k t = (s, false, "Account already exists")) ∧
    (∀ e, e ∉ keysOf s.accounts →
      switchAccount s e = (s, false, "Account not found")) ∧
    (∀ e, e ∉ keysOf s.accounts →
      deleteAccount s e = (s, false, "Account not found")) := by
  refine ⟨?_, ?_, ?_⟩
  · intro e k t h
    unfold addAccount
    rw [if_pos h]
  · intro e h
    unfold switchAccount
    rw [if_neg h]
  · intro e h
    unfold deleteAccount
    rw [if_neg h]

/-- Witness for C9 on a concrete one-account store. -/
theorem manager_errorPaths_atomic_witness :
    addAccount ⟨dict1, some "alice@x"⟩ "alice@x" "k9" "t9" =
      (⟨dict1, some "alice@x"⟩, false, "Account already exists") ∧
    switchAccount ⟨dict1, some "alice@x"⟩ "bob@x" =
      (⟨dict1, some "alice@x"⟩, false, "Account not found") ∧
    deleteAccount ⟨dict1, some "alice@x"⟩ "bob@x" =
      (⟨dict1, some "alice@x"⟩, false, "Account not found") :=
  ⟨(manager_errorPaths_atomic _).1 "alice@x" "k9" "t9" (by decide),
   (manager_errorPaths_atomic _).2.1 "bob@x" (by decide),
   (manager_errorPaths_atomic _).2.2 "bob@x" (by decide)⟩

/-- Claim C10: `_analyze_image` never propagates an exception - modelled
failures (image-load exception via `loadOk`, per-account API exceptions,
malformed responses, the `ValueError` of the advance when the active email is
not a key) are all absorbed - and the call always returns a list: the parsed
list of the first successful response, or else the empty list on every
failure path.  The fuel bound is the termination argument: any fuel above
`N + 1` suffices for the loop's at most `N` iterations. -/
theorem analyzeImage_total_noThrow {β : Type} (loadOk : Bool)
    (work : Nat → String → WorkOutcome β) (dict : AccountDict) (cur : String)
    (fuel : Nat) (hnd : (keysOf dict).Nodup)
    (hfuel : (keysOf dict).length + 1 < fuel) :
    ∃ r tr, analyzeImage loadOk work dict cur fuel = some (r, tr) ∧
      (r = [] ∨ ∃ n e, work n e = .success r) := by
  cases loadOk with
  | false => exact ⟨[], [], rfl, Or.inl rfl⟩
  | true =>
    by_cases hemp : (keysOf dict).length = 0
    · refine ⟨[], [], ?_, Or.inl rfl⟩
      have hempty : (keysOf dict).isEmpty = true := by
        cases h : keysOf dict with
        | nil => rfl
        | cons a l => rw [h] at hemp; simp at hemp
      simp [analyzeImage, hempty]
    · have hN : 0 < (keysOf dict).length := by omega
      rw [analyzeImage_eq_loop work dict cur fuel hN]
      by_cases hcur : cur ∈ keysOf dict
      · obtain ⟨i, hi, hgeti⟩ := List.getElem_of_mem hcur
        have hstart : cur = rotCur dict i 0 := by
          rw [rotCur_eq dict i 0 hN, Nat.zero_add, Nat.mod_eq_of_lt hi,
            getD_lt _ _ _ hi]
          exact hgeti.symm
        obtain ⟨r, tail, heq, hr⟩ :=
          rotateLoop_total work dict (rotCur dict i 0) i hnd
            (keysOf dict).length 0 (by omega) fuel 0 [] (by omega)
        refine ⟨r, tail, ?_, hr⟩
        rw [hstart]
        simpa [show triedAt dict i 0 = [] from rfl] using heq
      · obtain ⟨f, rfl⟩ : ∃ f, fuel = f + 1 := ⟨fuel - 1, by omega⟩
        have hget := pyGet_eq_none_of_not_mem dict cur hcur
        have hidx := pyIndex_eq_none_of_not_mem (keysOf dict) cur hcur
        refine ⟨[], [], ?_, Or.inl rfl⟩
        simp only [rotateLoop]
        rw [if_pos (by simpa using hN), if_neg (by simp)]
        simp [hget, hidx]

/-- Witness for C10 at a concrete mixed run (two failures, then success). -/
theorem analyzeImage_total_noThrow_witness :
    ∃ r tr, analyzeImage true wABC dict3 "b" 6 = some (r, tr) ∧
      (r = [] ∨ ∃ n e, wABC n e = .success r) :=
  analyzeImage_total_noThrow true wABC dict3 "b" 6 (by decide) (by decide)

end TermiTool
